import Mathlib

/-!
Shallow embedding of the Click Speed Tester session controller
(`src/App.tsx`, component `ClickSpeedTester`).

The component's mutable state consists of three React state cells
(`running : boolean`, `clicks : number`, `remaining : number`) and two refs
(`timerRef : NodeJS.Timer | null`, `endAtRef : number`).  We model times and
durations as `Int` (JavaScript `Date.now()` returns integral milliseconds and
all arithmetic performed on them in the source is integral).  The interval
timer is modelled by a flag `timerSet` (whether `timerRef.current` is
non-null) together with a counter `timerLive` counting the interval timers
armed by the component and not yet cancelled; `clearInterval` on the handle
stored in the ref cancels that timer (a decrement) exactly when the ref is
non-null.
-/

namespace ClickSpeedTester

/-- `const DURATION_MS = 5000` (src/App.tsx line 6). -/
def DURATION_MS : Int := 5000

/-- The session controller state of `ClickSpeedTester`:
`running`, `clicks`, `remaining` are the three `useState` cells
(lines 33-35), `endAt` is `endAtRef.current` (line 38), `timerSet` is
whether `timerRef.current` is non-null (line 37), and `timerLive` counts
the live (armed, not yet cancelled) interval timers. -/
structure AppState where
  running : Bool
  clicks : Nat
  remaining : Int
  endAt : Int
  timerSet : Bool
  timerLive : Nat
  deriving DecidableEq

/-- The initial component state: `running = false`, `clicks = 0`,
`remaining = DURATION_MS`, `endAtRef.current = 0`, no timer armed
(lines 33-38). -/
def init : AppState :=
  { running := false
    clicks := 0
    remaining := DURATION_MS
    endAt := 0
    timerSet := false
    timerLive := 0 }

/-- `if (timerRef.current) clearInterval(timerRef.current)` followed by the
ref becoming null (either explicitly or by being overwritten): cancels the
referenced timer when the ref is non-null. -/
def clearTimer (s : AppState) : AppState :=
  if s.timerSet then
    { s with timerSet := false, timerLive := s.timerLive - 1 }
  else s

/-- `start` (lines 49-68): clears any pending interval, zeroes the click
counter, resets the countdown, marks the session running, records the
absolute end time `now + DURATION_MS`, and arms a fresh interval timer. -/
def start (s : AppState) (now : Int) : AppState :=
  let s := clearTimer s
  { s with
    clicks := 0
    remaining := DURATION_MS
    running := true
    endAt := now + DURATION_MS
    timerSet := true
    timerLive := s.timerLive + 1 }

/-- The interval callback armed by `start` (lines 57-67): computes
`left = Math.max(0, endAtRef.current - Date.now())`, stores it in
`remaining`, and when `left <= 0` stops the session and cancels the
interval. -/
def tick (s : AppState) (now : Int) : AppState :=
  let left := max 0 (s.endAt - now)
  if left ≤ 0 then
    clearTimer { s with remaining := left, running := false }
  else
    { s with remaining := left }

/-- `reset` (lines 70-76): cancels any pending interval, nulls the timer
ref, stops the session, zeroes the click counter and restores the full
countdown.  Note that `endAtRef` is not touched. -/
def reset (s : AppState) : AppState :=
  let s := clearTimer s
  { s with running := false, clicks := 0, remaining := DURATION_MS }

/-- `handleClick` (lines 78-81): a no-op unless `running`; otherwise
increments `clicks` by one. -/
def handleClick (s : AppState) : AppState :=
  if s.running then { s with clicks := s.clicks + 1 } else s

/-- The coarse phase of a session.  It is not stored by the component but
derived from the stored state: `Running` iff the `running` flag is set,
`Finished` iff not running and the countdown reads 0 (the render condition
`!running && remaining === 0` on line 145), `Idle` otherwise. -/
inductive Phase where
  | Idle
  | Running
  | Finished
  deriving DecidableEq

/-- The derived phase of a state. -/
def phase (s : AppState) : Phase :=
  if s.running then Phase.Running
  else if s.remaining = 0 then Phase.Finished
  else Phase.Idle

/-- The guard of the summary line (line 145): the summary (and hence the
CPS value) is rendered exactly when `!running && remaining === 0`. -/
def summaryShown (s : AppState) : Bool :=
  !s.running && s.remaining == 0

/-- `const cps = clicks / (DURATION_MS / 1000)` (line 84), as an exact
rational (the JavaScript division is exact here; `.toFixed(2)` is
presentation only). -/
def cps (s : AppState) : ℚ :=
  (s.clicks : ℚ) / ((DURATION_MS : ℚ) / 1000)

/-- The four operations that mutate the session state.  `start` and `tick`
read the wall clock, passed here explicitly. -/
inductive Op where
  | start (now : Int)
  | tap
  | reset
  | tick (now : Int)
  deriving DecidableEq

/-- Whether an operation is a timer tick. -/
def Op.isTick : Op → Bool
  | Op.tick _ => true
  | _ => false

/-- Apply one operation to the state. -/
def applyOp (s : AppState) : Op → AppState
  | Op.start now => ClickSpeedTester.start s now
  | Op.tap => handleClick s
  | Op.reset => ClickSpeedTester.reset s
  | Op.tick _now => ClickSpeedTester.tick s _now

/-- Scheduling guard: `start`, `tap` and `reset` are user intents and can
arrive at any time; a `tick` fires only while an interval timer is armed. -/
def enabled (s : AppState) : Op → Bool
  | Op.tick _ => s.timerSet
  | _ => true

/-- Scheduling guard under a monotone clock: like `enabled`, but a tick
additionally reads a clock value not earlier than the reading taken at the
session's `start` (which was `endAt - DURATION_MS`). -/
def enabledMono (s : AppState) : Op → Bool
  | Op.tick now => s.timerSet && decide (s.endAt - DURATION_MS ≤ now)
  | _ => true

/-- States reachable from `init` by guarded operations. -/
inductive Reachable : AppState → Prop where
  | base : Reachable init
  | step {s : AppState} (op : Op) :
      Reachable s → enabled s op = true → Reachable (applyOp s op)

/-- States reachable from `init` by guarded operations under a monotone
clock: every tick during a session reads a time not earlier than the
reading taken when that session started. -/
inductive ReachableMono : AppState → Prop where
  | base : ReachableMono init
  | step {s : AppState} (op : Op) :
      ReachableMono s → enabledMono s op = true → ReachableMono (applyOp s op)

/-- The state invariant maintained by every guarded operation: the timer
ref is non-null exactly while the session is running, there is a live
interval timer exactly while the ref is non-null, the countdown is
non-negative, and while not running the countdown reads either 0 or the
full duration. -/
def Inv (s : AppState) : Prop :=
  s.timerSet = s.running ∧
  s.timerLive = (if s.timerSet then 1 else 0) ∧
  0 ≤ s.remaining ∧
  (s.running = false → s.remaining = 0 ∨ s.remaining = DURATION_MS)

@[simp]
theorem clearTimer_running (s : AppState) : (clearTimer s).running = s.running := by
  unfold clearTimer
  split <;> rfl

@[simp]
theorem clearTimer_clicks (s : AppState) : (clearTimer s).clicks = s.clicks := by
  unfold clearTimer
  split <;> rfl

@[simp]
theorem clearTimer_remaining (s : AppState) :
    (clearTimer s).remaining = s.remaining := by
  unfold clearTimer
  split <;> rfl

@[simp]
theorem clearTimer_endAt (s : AppState) : (clearTimer s).endAt = s.endAt := by
  unfold clearTimer
  split <;> rfl

@[simp]
theorem clearTimer_timerSet (s : AppState) :
    (clearTimer s).timerSet = false := by
  unfold clearTimer
  split <;> simp_all

@[simp]
theorem clearTimer_timerLive (s : AppState) :
    (clearTimer s).timerLive = if s.timerSet then s.timerLive - 1 else s.timerLive := by
  unfold clearTimer
  split <;> simp_all

theorem inv_init : Inv init := by
  refine ⟨rfl, rfl, by decide, fun _ => Or.inr rfl⟩

theorem inv_applyOp {s : AppState} {op : Op} (h : Inv s)
    (hen : enabled s op = true) : Inv (applyOp s op) := by
  obtain ⟨h1, h2, h3, h4⟩ := h
  cases op with
  | start now =>
      refine ⟨rfl, ?_, by norm_num [applyOp, start, DURATION_MS], by simp [applyOp, start]⟩
      simp only [applyOp, start, clearTimer_timerLive]
      split_ifs at h2 ⊢ <;> simp_all
  | tap =>
      simp only [applyOp, handleClick]
      split <;> exact ⟨h1, h2, h3, h4⟩
  | reset =>
      refine ⟨by simp [applyOp, reset], ?_,
        by norm_num [applyOp, reset, DURATION_MS],
        fun _ => Or.inr (by simp [applyOp, reset])⟩
      simp only [applyOp, reset, clearTimer_timerLive, clearTimer_timerSet]
      split_ifs at h2 ⊢ <;> simp_all
  | tick now =>
      have hset : s.timerSet = true := by simpa [enabled] using hen
      have hrun : s.running = true := hset ▸ h1.symm
      simp only [applyOp, tick]
      split
      · next hle =>
          have hz : max 0 (s.endAt - now) = 0 :=
            le_antisymm hle (le_max_left 0 _)
          refine ⟨by simp, ?_, by simp [hz], fun _ => by simp [hz]⟩
          simp only [clearTimer_timerLive, clearTimer_timerSet]
          rw [hset] at h2
          simp [hset, h2]
      · next hlt =>
          exact ⟨h1, h2, le_max_left 0 _, by simp [hrun]⟩

theorem reachable_inv {s : AppState} (h : Reachable s) : Inv s := by
  induction h with
  | base => exact inv_init
  | step op _ hen ih => exact inv_applyOp ih hen

theorem enabled_of_mono {s : AppState} {op : Op}
    (h : enabledMono s op = true) : enabled s op = true := by
  cases op with
  | tick now =>
      simp only [enabledMono, Bool.and_eq_true] at h
      simpa [enabled] using h.1
  | start now => rfl
  | tap => rfl
  | reset => rfl

theorem remBound_applyOp {s : AppState} {op : Op}
    (hb : s.remaining ≤ DURATION_MS) (hen : enabledMono s op = true) :
    (applyOp s op).remaining ≤ DURATION_MS := by
  cases op with
  | start now =>
      simp [applyOp, start]
  | tap =>
      simp only [applyOp, handleClick]
      split <;> simpa
  | reset =>
      simp [applyOp, reset]
  | tick now =>
      have hclock : s.endAt - DURATION_MS ≤ now := by
        simp only [enabledMono, Bool.and_eq_true, decide_eq_true_eq] at hen
        exact hen.2
      have hle : max 0 (s.endAt - now) ≤ DURATION_MS :=
        max_le (by decide) (by omega)
      simp only [applyOp, tick]
      split
      · simpa using hle
      · simpa using hle

theorem reachableMono_inv {s : AppState} (h : ReachableMono s) :
    Inv s ∧ s.remaining ≤ DURATION_MS := by
  induction h with
  | base => exact ⟨inv_init, le_refl _⟩
  | step op _ hen ih =>
      exact ⟨inv_applyOp ih.1 (enabled_of_mono hen), remBound_applyOp ih.2 hen⟩

/-- A concrete running state: the result of pressing Start at time 0 in the
initial state. -/
def exRun : AppState := start init 0

/-- Claim C1: for every sequence of operations (start, registerTap, reset,
tick) from the initial state, assuming clock readings during a session are
not earlier than the session's start reading, `remaining` stays within
`[0, DURATION_MS]` in every reachable state. -/
theorem remainingMs_in_range {s : AppState} (h : ReachableMono s) :
    0 ≤ s.remaining ∧ s.remaining ≤ DURATION_MS :=
  ⟨(reachableMono_inv h).1.2.2.1, (reachableMono_inv h).2⟩

theorem remainingMs_in_range_witness :
    0 ≤ (applyOp (applyOp init (Op.start 0)) (Op.tick 1234)).remaining ∧
    (applyOp (applyOp init (Op.start 0)) (Op.tick 1234)).remaining ≤ DURATION_MS :=
  remainingMs_in_range
    (ReachableMono.step (Op.tick 1234)
      (ReachableMono.step (Op.start 0) ReachableMono.base (by decide))
      (by decide))

/-- Claim C2: `start`, called in any phase, sets the click counter to 0,
the countdown to `DURATION_MS`, the absolute end time to
`now + DURATION_MS`, and the phase to `Running`; no clicks from a previous
session carry over. -/
theorem start_spec (s : AppState) (now : Int) :
    (start s now).clicks = 0 ∧ (start s now).remaining = DURATION_MS ∧
    (start s now).endAt = now + DURATION_MS ∧
    phase (start s now) = Phase.Running := by
  refine ⟨rfl, rfl, rfl, ?_⟩
  simp [phase, start]

/-- Claim C3: a `tick` invoked while `Running` at time `now` stores
`left = max 0 (endAt - now)` into `remaining`; if `left ≤ 0` it moves the
phase to `Finished` and cancels the interval, and if `left > 0` the phase
stays `Running` and `clicks` and `endAt` are unchanged. -/
theorem tick_spec (s : AppState) (now : Int) (h : s.running = true) :
    (tick s now).remaining = max 0 (s.endAt - now) ∧
    (max 0 (s.endAt - now) ≤ 0 →
      phase (tick s now) = Phase.Finished ∧ (tick s now).timerSet = false) ∧
    (0 < max 0 (s.endAt - now) →
      phase (tick s now) = Phase.Running ∧ (tick s now).clicks = s.clicks ∧
      (tick s now).endAt = s.endAt) := by
  simp only [tick]
  split
  · next hle =>
      have hz : max 0 (s.endAt - now) = 0 :=
        le_antisymm hle (le_max_left 0 _)
      refine ⟨by simp, fun _ => ⟨?_, by simp⟩,
        fun hlt => (lt_irrefl 0 (hz ▸ hlt)).elim⟩
      simp [phase, hz]
  · next hgt =>
      refine ⟨rfl, fun hle => absurd hle hgt, fun _ => ⟨?_, rfl, rfl⟩⟩
      simp [phase, h]

theorem tick_spec_witness :
    (tick exRun 999).remaining = max 0 (exRun.endAt - 999) ∧
    (max 0 (exRun.endAt - 999) ≤ 0 →
      phase (tick exRun 999) = Phase.Finished ∧
      (tick exRun 999).timerSet = false) ∧
    (0 < max 0 (exRun.endAt - 999) →
      phase (tick exRun 999) = Phase.Running ∧
      (tick exRun 999).clicks = exRun.clicks ∧
      (tick exRun 999).endAt = exRun.endAt) :=
  tick_spec exRun 999 (by decide)

/-- Claim C4: `handleClick` while `Running` increments the click counter by
exactly one and changes nothing else; `handleClick` while `Idle` or
`Finished` is accepted and leaves the entire state unchanged. -/
theorem registerTap_spec (s : AppState) :
    (phase s = Phase.Running → handleClick s = { s with clicks := s.clicks + 1 }) ∧
    (phase s ≠ Phase.Running → handleClick s = s) := by
  cases hr : s.running with
  | false =>
      have hnp : phase s ≠ Phase.Running := by
        by_cases hz : s.remaining = 0
        · simp [phase, hr, hz]
        · simp [phase, hr, hz]
      exact ⟨fun hp => absurd hp hnp, fun _ => by simp [handleClick, hr]⟩
  | true =>
      exact ⟨fun _ => by simp [handleClick, hr],
        fun hp => absurd (by simp [phase, hr]) hp⟩

theorem registerTap_spec_witness :
    handleClick exRun = { exRun with clicks := exRun.clicks + 1 } ∧
    handleClick init = init :=
  ⟨(registerTap_spec exRun).1 (by decide), (registerTap_spec init).2 (by decide)⟩

/-- A concrete state with a stale `endAt` and a nonzero click counter, as
left behind by an earlier session. -/
def exStale : AppState :=
  { running := false
    clicks := 3
    remaining := DURATION_MS
    endAt := 777
    timerSet := false
    timerLive := 0 }

/-- Claim C5 counterexample: `reset` does not clear `endAt`.  From a state
whose `endAt` is 777, `reset` leaves `endAt` at 777, while the initial
state has `endAt = 0`; hence `reset` does not fully return the state to its
initial value. -/
theorem reset_counterexample :
    (reset exStale).endAt = 777 ∧ init.endAt = 0 ∧ reset exStale ≠ init := by
  decide

/-- Claim C5 (amended): `reset`, called in any phase, sets the phase to
`Idle`, the click counter to 0 and the countdown to `DURATION_MS`, and
cancels the timer; `endAt` is left unchanged (stale) rather than cleared. -/
theorem reset_spec (s : AppState) :
    phase (reset s) = Phase.Idle ∧ (reset s).clicks = 0 ∧
    (reset s).remaining = DURATION_MS ∧ (reset s).timerSet = false ∧
    (reset s).endAt = s.endAt := by
  refine ⟨?_, rfl, rfl, by simp [reset], by simp [reset]⟩
  simp [phase, reset, DURATION_MS]

/-- Claim C6 counterexample: an operation other than a tap changes the
click counter: from a state with 3 recorded clicks, `start` zeroes it. -/
theorem clicks_change_counterexample :
    (applyOp exStale (Op.start 0)).clicks ≠ exStale.clicks ∧
    Op.start 0 ≠ Op.tap := by
  decide

/-- Claim C6 (amended): `clicks` changes only via a tap while running
(which increments it by exactly one) or via `start`/`reset` (which zero
it); a tick never changes `clicks`, and a tap outside `Running` leaves it
unchanged. -/
theorem clicks_change_characterization (s : AppState) (op : Op)
    (h : (applyOp s op).clicks ≠ s.clicks) :
    (op = Op.tap ∧ s.running = true ∧ (applyOp s op).clicks = s.clicks + 1) ∨
    (op.isTick = false ∧ op ≠ Op.tap ∧ (applyOp s op).clicks = 0) := by
  cases op with
  | start now => exact Or.inr ⟨rfl, by simp, rfl⟩
  | tap =>
      by_cases hrun : s.running = true
      · refine Or.inl ⟨rfl, hrun, ?_⟩
        simp [applyOp, handleClick, hrun]
      · exfalso
        apply h
        simp [applyOp, handleClick, hrun]
  | reset => exact Or.inr ⟨rfl, by simp, rfl⟩
  | tick now =>
      have hsame : (tick s now).clicks = s.clicks := by
        simp only [tick]
        split <;> simp
      exact absurd hsame h

theorem clicks_change_characterization_witness :
    (Op.tap = Op.tap ∧ exRun.running = true ∧
      (applyOp exRun Op.tap).clicks = exRun.clicks + 1) ∨
    ((Op.tap).isTick = false ∧ Op.tap ≠ Op.tap ∧
      (applyOp exRun Op.tap).clicks = 0) :=
  clicks_change_characterization exRun Op.tap (by decide)

/-- Claim C7: in every reachable execution, a tick observing `left ≤ 0` is
the only transition taking the phase from `Running` to `Finished`; `start`,
a tap and `reset` never produce the `Finished` phase. -/
theorem finished_only_via_tick {s : AppState} (op : Op)
    (hr : Reachable s) (hen : enabled s op = true)
    (hfin : phase (applyOp s op) = Phase.Finished)
    (hpre : phase s ≠ Phase.Finished) :
    op.isTick = true ∧ phase s = Phase.Running ∧
    (applyOp s op).remaining = 0 ∧ (applyOp s op).running = false := by
  obtain ⟨h1, h2, h3, h4⟩ := reachable_inv hr
  cases op with
  | start now =>
      exfalso
      revert hfin
      simp [applyOp, phase, start]
  | tap =>
      have hsame : phase (handleClick s) = phase s := by
        unfold handleClick
        split <;> rfl
      rw [applyOp] at hfin
      rw [hsame] at hfin
      exact absurd hfin hpre
  | reset =>
      exfalso
      revert hfin
      simp [applyOp, phase, reset, DURATION_MS]
  | tick now =>
      have hset : s.timerSet = true := by simpa [enabled] using hen
      have hrun : s.running = true := hset ▸ h1.symm
      refine ⟨rfl, by simp [phase, hrun], ?_⟩
      revert hfin
      simp only [applyOp, tick]
      split
      · next hle =>
          have hz : max 0 (s.endAt - now) = 0 :=
            le_antisymm hle (le_max_left 0 _)
          intro _
          exact ⟨by simp [hz], by simp⟩
      · next hgt =>
          intro hfin
          exfalso
          revert hfin
          simp [phase, hrun]

theorem finished_only_via_tick_witness :
    (Op.tick 5000).isTick = true ∧
    phase (applyOp init (Op.start 0)) = Phase.Running ∧
    (applyOp (applyOp init (Op.start 0)) (Op.tick 5000)).remaining = 0 ∧
    (applyOp (applyOp init (Op.start 0)) (Op.tick 5000)).running = false :=
  finished_only_via_tick (Op.tick 5000)
    (Reachable.step (Op.start 0) Reachable.base (by decide))
    (by decide) (by decide) (by decide)

/-- Claim C8: at most one periodic interval timer is live at any moment:
every `start` cancels the previously scheduled interval before arming a new
one, and `reset` and the session-finishing tick cancel the outstanding
interval, so in every reachable state the number of live interval timers
never exceeds one. -/
theorem at_most_one_timer {s : AppState} (h : Reachable s) :
    s.timerLive ≤ 1 := by
  have h2 := (reachable_inv h).2.1
  rw [h2]
  split <;> omega

theorem at_most_one_timer_witness :
    (applyOp (applyOp init (Op.start 0)) (Op.start 100)).timerLive ≤ 1 :=
  at_most_one_timer
    (Reachable.step (Op.start 100)
      (Reachable.step (Op.start 0) Reachable.base (by decide))
      (by decide))

/-- Claim C9: `cps` equals `clicks / 5`, computed from the fixed configured
duration (it depends only on the click counter), and the summary that
displays it is rendered exactly when the derived phase is `Finished`. -/
theorem cps_spec (s : AppState) :
    cps s = (s.clicks : ℚ) / 5 ∧
    (summaryShown s = true ↔ phase s = Phase.Finished) := by
  constructor
  · unfold cps DURATION_MS
    norm_num
  · unfold summaryShown phase
    cases hr : s.running with
    | true => simp
    | false =>
        by_cases hz : s.remaining = 0
        · simp [hz]
        · simp [hz]

theorem cps_spec_witness :
    cps (tick (start init 0) 5000) =
      (((tick (start init 0) 5000).clicks : ℚ) / 5) ∧
    phase (tick (start init 0) 5000) = Phase.Finished :=
  ⟨(cps_spec (tick (start init 0) 5000)).1,
    (cps_spec (tick (start init 0) 5000)).2.mp (by decide)⟩

/-- Claim C10: in every reachable state in which `running` is false, the
countdown reads either exactly 0 or exactly `DURATION_MS`; consequently the
derived `Finished` render condition is false in the initial state and after
every `reset`, so `Idle` and `Finished` are unambiguously distinguishable
from the stored `(running, remaining)` pair. -/
theorem idle_finished_distinct {s : AppState} (h : Reachable s) :
    (s.running = false → s.remaining = 0 ∨ s.remaining = DURATION_MS) ∧
    summaryShown init = false ∧ summaryShown (reset s) = false := by
  refine ⟨(reachable_inv h).2.2.2, by decide, ?_⟩
  simp [summaryShown, reset, DURATION_MS]

theorem idle_finished_distinct_witness :
    (init.running = false → init.remaining = 0 ∨ init.remaining = DURATION_MS) ∧
    summaryShown init = false ∧ summaryShown (reset init) = false :=
  idle_finished_distinct Reachable.base

example : (start init 0).clicks = 0 := by decide
example : (start init 0).endAt = 5000 := by decide
example : phase (start init 0) = Phase.Running := by decide
example : (tick (start init 0) 2000).remaining = 3000 := by decide
example : phase (tick (start init 0) 5000) = Phase.Finished := by decide
example : (reset { init with endAt := 777 }).endAt = 777 := by decide
example : summaryShown (tick (start init 0) 5000) = true := by decide
example : cps { init with clicks := 10 } = 2 := by
  simp [cps, init, DURATION_MS]
  norm_num

end ClickSpeedTester
